import Mathlib

/-!
Shallow embedding of the `js-graph-annotator` widget (`src/graph-annotator.js`)
and proofs about the claims of its specification.

Modelling conventions:
* JavaScript numbers appearing in this code are integers (pixel coordinates,
  widths, diameters, RGB components), embedded as `Int`.
* A node or edge is a JS object; the open key/value attribute map written by
  `setNodeAttributes` / `setEdgeAttributes` is embedded as an association
  list `AttrMap`.  A node's `position` field is kept as a separate
  `Option (Int × Int)` field (present iff the node has been placed); the
  attribute setters in this repository are used with the documented keys
  `color`, `line_width`, `diameter`, never `position`.
* Euclidean distances: the source compares `Math.sqrt(dx^2+dy^2)` against
  `hit_distance` and against the running minimum.  Real square root is
  strictly monotone on nonnegatives, so `sqrt d2 ≤ hit ↔ 0 ≤ hit ∧ d2 ≤ hit²`
  and `sqrt d2 ≤ sqrt m2 ↔ d2 ≤ m2`; the embedding compares squared
  distances via `hitLe` and `minLeP` accordingly.
* A thrown JS `TypeError` (reading a property of `undefined`) is embedded as
  the value `JSErr.typeError`; functions that can throw return the state at
  the moment control left the function together with `Option JSErr`.
-/

inductive JSValue where
  | num (n : Int)
  | arrv (l : List Int)
  deriving DecidableEq, Repr

/-- Truthiness of a JS value: the number 0 is falsy, every array (a JS
object) is truthy. -/
def JSValue.truthy : JSValue → Bool
  | .num n => n != 0
  | .arrv _ => true

abbrev AttrMap := List (String × JSValue)

/-- Attribute keys used by the widget. -/
def keyColor : String := "color"

def keyLineWidth : String := "line_width"

def keyDiameter : String := "diameter"

/-- Read a key of a JS object (association list): first binding wins. -/
def getKey (m : AttrMap) (k : String) : Option JSValue :=
  (m.find? (fun p => p.1 = k)).map (fun p => p.2)

/-- Assignment `obj[k] = v` on a JS object: overwrite the binding in place
if the key exists, otherwise append it. -/
def setKey (m : AttrMap) (k : String) (v : JSValue) : AttrMap :=
  if m.any (fun p => p.1 = k) then
    m.map (fun p => if p.1 = k then (k, v) else p)
  else
    m ++ [(k, v)]

/-- Merge: `for (var key in attributes) elem[key] = attributes[key]`. -/
def mergeAttrs (m : AttrMap) (attrs : AttrMap) : AttrMap :=
  attrs.foldl (fun acc kv => setKey acc kv.1 kv.2) m

structure JSNode where
  position : Option (Int × Int) := none
  attrs : AttrMap := []
  deriving DecidableEq, Repr

structure JSEdge where
  index : Int × Int
  attrs : AttrMap := []
  deriving DecidableEq, Repr

structure JSGraph where
  nodes : List JSNode
  edges : List JSEdge
  deriving DecidableEq, Repr

inductive JSErr where
  | typeError
  | indexOutOfRange
  deriving DecidableEq, Repr

/-- Index a JS array with an integer index: out-of-bounds and negative
indices yield `undefined` (here `none`) without throwing. -/
def intGet? {α : Type} (l : List α) (i : Int) : Option α :=
  if 0 ≤ i then l[i.toNat]? else none

/-- Body of the attribute-setting loop
`for (var i = start; i < end; ++i) for (var key in attributes) elems[i][key] = attributes[key];`
running for `fuel = (end - start)` iterations from index `i`.  When
`elems[i]` is `undefined` and `attrs` is nonempty, the first inner
assignment throws a `TypeError` (the loop stops, earlier mutations remain);
when `attrs` is empty the inner loop has no iterations, so nothing throws. -/
def attrLoop {α : Type} (setA : α → AttrMap → α) (attrs : AttrMap) :
    Nat → Int → List α → List α × Option JSErr
  | 0, _, elems => (elems, none)
  | fuel + 1, i, elems =>
    match intGet? elems i with
    | some e =>
        attrLoop setA attrs fuel (i + 1) (elems.set i.toNat (setA e attrs))
    | none =>
        if attrs.isEmpty then attrLoop setA attrs fuel (i + 1) elems
        else (elems, some JSErr.typeError)

/-- Merge an attribute mapping into one node object. -/
def nodeSetAttrs (n : JSNode) (attrs : AttrMap) : JSNode :=
  { n with attrs := mergeAttrs n.attrs attrs }

/-- Merge an attribute mapping into one edge object. -/
def edgeSetAttrs (e : JSEdge) (attrs : AttrMap) : JSEdge :=
  { e with attrs := mergeAttrs e.attrs attrs }

/-- Embedding of `setNodeAttributes`.  `index = none` is the call with the
index omitted (or passed as `null`): the loop runs over all nodes
(`start = 0, end = graph.nodes.length`); `index = some i` runs the loop
from `i` to `i + 1`.  Returns the graph when control leaves the function
together with the thrown error, if any. -/
def setNodeAttributes (g : JSGraph) (index : Option Int) (attrs : AttrMap) :
    JSGraph × Option JSErr :=
  let start : Int := match index with | none => 0 | some i => i
  let stop : Int := match index with | none => (g.nodes.length : Int) | some i => i + 1
  let r := attrLoop nodeSetAttrs attrs (stop - start).toNat start g.nodes
  ({ g with nodes := r.1 }, r.2)

/-- Embedding of `setEdgeAttributes`.  Mirrors the source faithfully: with
the index omitted the loop bound is `graph.nodes.length` (the node count,
not the edge count) — `var start = 0, end = graph.nodes.length;`. -/
def setEdgeAttributes (g : JSGraph) (index : Option Int) (attrs : AttrMap) :
    JSGraph × Option JSErr :=
  let start : Int := match index with | none => 0 | some i => i
  let stop : Int := match index with | none => (g.nodes.length : Int) | some i => i + 1
  let r := attrLoop edgeSetAttrs attrs (stop - start).toNat start g.edges
  ({ g with edges := r.1 }, r.2)

/-- Squared Euclidean distance between two points (the source computes
`Math.sqrt(Math.pow(nx-px,2) + Math.pow(ny-py,2))`; the embedding keeps
the square, see the header comment). -/
def distSq (a b : Int × Int) : Int :=
  (a.1 - b.1) * (a.1 - b.1) + (a.2 - b.2) * (a.2 - b.2)

/-- Comparison `distance <= options.hit_distance` at the squared level:
the nonnegative square root of `d2` is at most `hit` iff `hit` is
nonnegative and `d2 ≤ hit²`. -/
def hitLe (hit d2 : Int) : Bool :=
  decide (0 ≤ hit) && decide (d2 ≤ hit * hit)

/-- Comparison `distance <= min_distance` at the squared level.  In the
source `candidate` and `min_distance` are assigned only together, so the
pair is embedded as one `Option (Nat × Int)` (`none` is
`candidate = null, min_distance = Infinity`, which makes the comparison
true). -/
def minLeP (acc : Option (Nat × Int)) (d2 : Int) : Bool :=
  match acc with
  | none => true
  | some cm => decide (d2 ≤ cm.2)

/-- Embedding of the placed-node scan of `findNode`:
`for (i = 0; ...) if (nodes[i].position !== undefined) { d = dist(...); if (d <= hit_distance && d <= min_distance) { min_distance = d; candidate = i; } }`
running over the node list with `i` the index of the head. -/
def nodeScan (p : Int × Int) (hit : Int) :
    List JSNode → Nat → Option (Nat × Int) → Option (Nat × Int)
  | [], _, acc => acc
  | n :: rest, i, acc =>
    nodeScan p hit rest (i + 1)
      (match n.position with
       | none => acc
       | some np =>
         if hitLe hit (distSq np p) && minLeP acc (distSq np p) then
           some (i, distSq np p)
         else acc)

/-- Embedding of the fallback scan of `findNode`:
`for (i = 0; ...) if (nodes[i].position === undefined) { candidate = i; break; }`. -/
def firstUnplaced : List JSNode → Nat → Option Nat
  | [], _ => none
  | n :: rest, i =>
    if n.position.isNone then some i else firstUnplaced rest (i + 1)

/-- Embedding of `findNode(position)`.  `hit` is the number stored in
`options.hit_distance` when the function runs.  A `null` position is
falsy, so the placed-node scan is skipped; when the scan leaves
`candidate === null` the first unplaced node is returned. -/
def findNode (hit : Int) (g : JSGraph) (position : Option (Int × Int)) :
    Option Nat :=
  let candidate : Option Nat :=
    match position with
    | none => none
    | some p => Option.map Prod.fst (nodeScan p hit g.nodes 0 none)
  match candidate with
  | some c => some c
  | none => firstUnplaced g.nodes 0

/-- Embedding of `getNextNode`: `return findNode(null);`. -/
def getNextNode (hit : Int) (g : JSGraph) : Option Nat :=
  findNode hit g none

/-- Widget-level options read by the renderer and by `initialize`.  A field
is `none` when the caller did not pass it (JS `undefined`). -/
structure JSOptions where
  line_width : Option JSValue := none
  node_color : Option JSValue := none
  edge_color : Option JSValue := none
  node_diameter : Option JSValue := none
  hit_distance : Option JSValue := none
  deriving DecidableEq, Repr

/-- JS short-circuit `a || b` where `a` may be an absent field: returns `a`
when it is present and truthy, otherwise `b`. -/
def jsOr (a : Option JSValue) (b : JSValue) : JSValue :=
  match a with
  | some v => if v.truthy then v else b
  | none => b

/-- Effective edge line width: `edge['line_width'] || options['line_width'] || 3`. -/
def effEdgeWidth (e : JSEdge) (o : JSOptions) : JSValue :=
  jsOr (getKey e.attrs keyLineWidth) (jsOr o.line_width (JSValue.num 3))

/-- Effective edge stroke color: `edge['color'] || options['edge_color'] || [0,255,255]`. -/
def effEdgeColor (e : JSEdge) (o : JSOptions) : JSValue :=
  jsOr (getKey e.attrs keyColor) (jsOr o.edge_color (JSValue.arrv [0, 255, 255]))

/-- Effective node line width: `node['line_width'] || options['line_width'] || 3`. -/
def effNodeWidth (n : JSNode) (o : JSOptions) : JSValue :=
  jsOr (getKey n.attrs keyLineWidth) (jsOr o.line_width (JSValue.num 3))

/-- Effective node stroke color: `node['color'] || options['node_color'] || [0,255,255]`. -/
def effNodeColor (n : JSNode) (o : JSOptions) : JSValue :=
  jsOr (getKey n.attrs keyColor) (jsOr o.node_color (JSValue.arrv [0, 255, 255]))

/-- Effective node diameter: `node['diameter'] || options['node_diameter'] || 3`. -/
def effNodeDiam (n : JSNode) (o : JSOptions) : JSValue :=
  jsOr (getKey n.attrs keyDiameter) (jsOr o.node_diameter (JSValue.num 3))

/-- Embedding of the `initialize` line
`options['hit_distance'] = options['hit_distance'] || 10;`. -/
def initHitDistance (o : JSOptions) : JSValue :=
  jsOr o.hit_distance (JSValue.num 10)

/-- Drawing primitives issued by `renderGraph`: a stroked line segment for
an edge, a stroked circle (arc) for a node. -/
inductive DrawCmd where
  | line (p1 p2 : Int × Int) (width color : JSValue)
  | circle (center : Int × Int) (width color diameter : JSValue)
  deriving DecidableEq, Repr

def DrawCmd.isLine : DrawCmd → Bool
  | .line _ _ _ _ => true
  | .circle _ _ _ _ => false

/-- Embedding of the edge loop of `renderGraph`.  `nodes[edge.index[k]]`
is `undefined` for an out-of-range index; the source then throws a
`TypeError` when it dereferences `.position` (result `none`).  The `||`
in the skip test short-circuits: when `node1.position` is `undefined` the
edge is skipped without dereferencing `node2`. -/
def renderEdges (nodes : List JSNode) (o : JSOptions) :
    List JSEdge → Option (List DrawCmd)
  | [] => some []
  | e :: rest =>
    match intGet? nodes e.index.1 with
    | none => none
    | some n1 =>
      match n1.position with
      | none =>
        match intGet? nodes e.index.2 with
        | none => none
        | some _ => renderEdges nodes o rest
      | some p1 =>
        match intGet? nodes e.index.2 with
        | none => none
        | some n2 =>
          match n2.position with
          | none => renderEdges nodes o rest
          | some p2 =>
            (renderEdges nodes o rest).map
              (fun cmds => DrawCmd.line p1 p2 (effEdgeWidth e o) (effEdgeColor e o) :: cmds)

/-- Embedding of the node loop of `renderGraph`: a node is drawn iff its
`position` is truthy (a coordinate array is always truthy when present). -/
def renderNodes (o : JSOptions) (nodes : List JSNode) : List DrawCmd :=
  nodes.filterMap
    (fun n => n.position.map
      (fun pos => DrawCmd.circle pos (effNodeWidth n o) (effNodeColor n o) (effNodeDiam n o)))

/-- Embedding of `renderGraph`: the edge loop runs first, then the node
loop; `none` models the `TypeError` thrown on an edge whose endpoint
index is out of range (before any node is drawn). -/
def renderGraph (g : JSGraph) (o : JSOptions) : Option (List DrawCmd) :=
  (renderEdges g.nodes o g.edges).map (fun ec => ec ++ renderNodes o g.nodes)

/-- Embedding of `getPosition`: the raw pointer coordinate (page offset
already subtracted) is clamped to `[0, w-1] × [0, h-1]` where `w × h` is
the canvas size. -/
def getPosition (w h : Int) (raw : Int × Int) : Int × Int :=
  (max (min raw.1 (w - 1)) 0, max (min raw.2 (h - 1)) 0)

/-- Overwrite the `position` field of the node at index `i`
(`graph.nodes[current_node].position = getPosition(event);`). -/
def setNodePos : List JSNode → Nat → (Int × Int) → List JSNode
  | [], _, _ => []
  | n :: rest, 0, pos => { n with position := some pos } :: rest
  | n :: rest, i + 1, pos => n :: setNodePos rest i pos

/-- Embedding of `updateNode(event, current_node)`: when `current_node`
is not `null`, store the clamped pointer position into that node (the
`renderGraph()` call it also makes only draws, it does not change the
graph). -/
def updateNode (g : JSGraph) (current : Option Nat) (pos : Int × Int) : JSGraph :=
  match current with
  | none => g
  | some i => { g with nodes := setNodePos g.nodes i pos }

/-- Pointer events dispatched to the handlers installed by
`initializeEvents`; each carries the raw coordinate that `getPosition`
will clamp. -/
inductive PointerEvent where
  | mousedown (raw : Int × Int)
  | mousemove (raw : Int × Int)
  | mouseup (raw : Int × Int)
  deriving DecidableEq, Repr

/-- Callback invocations observable by the embedding's caller. -/
inductive CallbackCall where
  | onselect (node : Option Nat)
  | onchange (node : Option Nat)
  deriving DecidableEq, Repr

/-- Mutable state captured by the closures of `initializeEvents`:
`mousestatus`, `current_node`, and the graph. -/
structure WidgetState where
  mousestatus : Bool
  current_node : Option Nat
  graph : JSGraph
  deriving DecidableEq, Repr

/-- One event-handler dispatch of `initializeEvents`.  `hasOnselect` is
whether `options['onselect']` is configured; the handlers are only
installed when `options['onchange']` is configured (see `initialize`), and
the `mouseup` handler calls it unconditionally.  `hit` is
`options.hit_distance`, `w × h` the canvas size. -/
def step (hasOnselect : Bool) (hit : Int) (w h : Int) (s : WidgetState) :
    PointerEvent → WidgetState × List CallbackCall
  | .mousedown raw =>
    if s.mousestatus = false then
      let pos := getPosition w h raw
      let t := findNode hit s.graph (some pos)
      ({ mousestatus := true, current_node := t, graph := updateNode s.graph t pos },
       if hasOnselect then [CallbackCall.onselect t] else [])
    else (s, [])
  | .mousemove raw =>
    if s.mousestatus = true then
      ({ s with graph := updateNode s.graph s.current_node (getPosition w h raw) }, [])
    else (s, [])
  | .mouseup raw =>
    if s.mousestatus = true then
      ({ mousestatus := false, current_node := none,
         graph := updateNode s.graph s.current_node (getPosition w h raw) },
       [CallbackCall.onchange s.current_node])
    else (s, [])

/-- Deliver a sequence of pointer events, collecting the callback calls in
order. -/
def runEvents (hasOnselect : Bool) (hit : Int) (w h : Int) (s : WidgetState) :
    List PointerEvent → WidgetState × List CallbackCall
  | [] => (s, [])
  | e :: rest =>
    let r := step hasOnselect hit w h s e
    let r2 := runEvents hasOnselect hit w h r.1 rest
    (r2.1, r.2 ++ r2.2)

/-- Event list of one full gesture: one press, `moves.length` moves, one
release. -/
def gestureEvents (p : Int × Int) (moves : List (Int × Int)) (q : Int × Int) :
    List PointerEvent :=
  PointerEvent.mousedown p :: moves.map PointerEvent.mousemove ++ [PointerEvent.mouseup q]

/-- Qualifying squared distance of one node of the scan of `findNode`: the
node is placed and its distance to the pointer is within `hit`. -/
def nodeQ (p : Int × Int) (hit : Int) (n : JSNode) : Option Int :=
  match n.position with
  | none => none
  | some np => if hitLe hit (distSq np p) then some (distSq np p) else none

/-- One accepted update of the scan: the candidate/minimum pair is replaced
when the new squared distance is at most the running minimum. -/
def qualStep (acc : Option (Nat × Int)) (e : Nat × Int) : Option (Nat × Int) :=
  if minLeP acc e.2 then some e else acc

/-- Indexed list of the qualifying nodes (index, squared distance) met by
the scan of `findNode`, with `i` the index of the head. -/
def quals (p : Int × Int) (hit : Int) : List JSNode → Nat → List (Nat × Int)
  | [], _ => []
  | n :: rest, i =>
    match nodeQ p hit n with
    | some d2 => (i, d2) :: quals p hit rest (i + 1)
    | none => quals p hit rest (i + 1)

/-- Node `j` of graph `g` is placed within `hit` of pointer `p`, with
squared distance `d`. -/
def Qualifies (g : JSGraph) (hit : Int) (p : Int × Int) (j : Nat) (d : Int) : Prop :=
  ∃ n, g.nodes[j]? = some n ∧ nodeQ p hit n = some d

/-- Soundness statement for the candidate left by a fold of `qualStep`:
it is one of the scanned pairs, its squared distance is minimal, and it
carries the largest index among the minimisers. -/
def GoodFold (L : List (Nat × Int)) (r : Option (Nat × Int)) : Prop :=
  match r with
  | none => L = []
  | some cm => cm ∈ L ∧ (∀ e ∈ L, cm.2 ≤ e.2) ∧ ∀ e ∈ L, e.2 = cm.2 → e.1 ≤ cm.1

/-- Truthiness of a possibly-absent JS value: set and non-falsy. -/
def isTruthyOpt (x : Option JSValue) : Bool :=
  match x with
  | some v => v.truthy
  | none => false

/-- Modelled from the spec wording of the style-resolution claim: the
element's own override if set and non-falsy, else the widget-level option
if set and non-falsy, else the hard-coded fallback.  Compared with the
`eff…` functions read off the source. -/
def specResolve (own widget : Option JSValue) (fallback : JSValue) : JSValue :=
  if isTruthyOpt own then own.getD fallback
  else if isTruthyOpt widget then widget.getD fallback
  else fallback

/-- Drawing command produced for one edge, as a total function of the node
list: a line iff both endpoint nodes exist and are placed. -/
def edgeCmd (nodes : List JSNode) (o : JSOptions) (e : JSEdge) : Option DrawCmd :=
  match intGet? nodes e.index.1, intGet? nodes e.index.2 with
  | some n1, some n2 =>
    match n1.position, n2.position with
    | some p1, some p2 =>
      some (DrawCmd.line p1 p2 (effEdgeWidth e o) (effEdgeColor e o))
    | _, _ => none
  | _, _ => none

/-- Every edge of the graph references existing nodes (the spec's
`InvalidTopology`-free precondition). -/
def ValidTopology (g : JSGraph) : Prop :=
  ∀ e ∈ g.edges,
    (0 ≤ e.index.1 ∧ e.index.1 < (g.nodes.length : Int)) ∧
    (0 ≤ e.index.2 ∧ e.index.2 < (g.nodes.length : Int))

/-- Example graph: two placed nodes at exact Euclidean distance 5 from the
origin (a tie), no edges. -/
def exGTie : JSGraph :=
  { nodes := [{ position := some (3, 4) }, { position := some (0, 5) }],
    edges := [] }

/-- Example graph with more edges (3) than nodes (2); all edge endpoints
are valid node indices. -/
def exGEdges : JSGraph :=
  { nodes := [{}, {}],
    edges := [{ index := (0, 1) }, { index := (1, 0) }, { index := (0, 1) }] }

/-- Example graph: node 0 placed, node 1 not yet placed. -/
def exGNext : JSGraph :=
  { nodes := [{ position := some (5, 5) }, {}],
    edges := [{ index := (0, 1) }] }

/-- Example graph for the renderer: three nodes (two placed), two edges of
which only one has both endpoints placed. -/
def exGRender : JSGraph :=
  { nodes := [{ position := some (1, 1) }, { position := some (4, 5) }, {}],
    edges := [{ index := (0, 1) }, { index := (1, 2) }] }

/-- Example 3-node chain graph, untouched (no node placed), as in the
spec's gesture scenario. -/
def exGChain : JSGraph :=
  { nodes := [{}, {}, {}],
    edges := [{ index := (0, 1) }, { index := (1, 2) }] }

/-- Example widget state at rest (Idle) over a given graph. -/
def exIdle (g : JSGraph) : WidgetState :=
  { mousestatus := false, current_node := none, graph := g }

theorem getKey_nil (k : String) : getKey [] k = none := rfl

theorem getKey_cons (a : String × JSValue) (m : AttrMap) (k : String) :
    getKey (a :: m) k = if a.1 = k then some a.2 else getKey m k := by
  by_cases h : a.1 = k <;> simp [getKey, List.find?_cons_of_pos, List.find?_cons_of_neg, h]

theorem getKey_map_set (m : AttrMap) (k : String) (v : JSValue) (q : String)
    (h : ¬ q = k) :
    getKey (m.map (fun p => if p.1 = k then (k, v) else p)) q = getKey m q := by
  induction m with
  | nil => rfl
  | cons a m ih =>
    by_cases ha : a.1 = k
    · have h1 : (if a.1 = k then (k, v) else a) = (k, v) := if_pos ha
      simp only [List.map_cons, h1, getKey_cons]
      rw [if_neg (fun hk => h hk.symm), if_neg (fun hk => h (ha.symm.trans hk).symm), ih]
    · simp only [List.map_cons, if_neg ha, getKey_cons, ih]

theorem any_key_isSome (m : AttrMap) (k : String) :
    (m.any fun p => p.1 = k) = (getKey m k).isSome := by
  induction m with
  | nil => rfl
  | cons a m ih => by_cases h : a.1 = k <;> simp [getKey_cons, h, ih]

theorem getKey_map_set_self (m : AttrMap) (k : String) (v : JSValue)
    (h : (m.any fun p => p.1 = k) = true) :
    getKey (m.map (fun p => if p.1 = k then (k, v) else p)) k = some v := by
  induction m with
  | nil => simp at h
  | cons a m ih =>
    by_cases ha : a.1 = k
    · simp [ha, getKey_cons]
    · simp only [List.any_cons, Bool.or_eq_true, decide_eq_true_eq] at h
      rcases h with h | h
      · exact absurd h ha
      · simp only [List.map_cons, if_neg ha, getKey_cons, if_neg ha]
        exact ih h

theorem getKey_append_single (m : AttrMap) (k : String) (v : JSValue) (q : String) :
    getKey (m ++ [(k, v)]) q =
      if (getKey m q).isSome then getKey m q
      else if k = q then some v else none := by
  induction m with
  | nil => simp [getKey_nil, getKey_cons]
  | cons a m ih =>
    by_cases h : a.1 = q <;> simp [getKey_cons, h, ih]

theorem getKey_setKey (m : AttrMap) (k : String) (v : JSValue) (q : String) :
    getKey (setKey m k v) q = if q = k then some v else getKey m q := by
  unfold setKey
  by_cases hany : (m.any fun p => p.1 = k) = true
  · rw [if_pos hany]
    by_cases hq : q = k
    · subst hq; rw [if_pos rfl]; exact getKey_map_set_self m q v hany
    · rw [if_neg hq]; exact getKey_map_set m k v q hq
  · rw [if_neg hany, getKey_append_single]
    by_cases hq : q = k
    · subst hq
      have hnone : getKey m q = none := by
        rw [any_key_isSome] at hany
        cases hg : getKey m q with
        | none => rfl
        | some w => rw [hg] at hany; simp at hany
      simp [hnone]
    · cases hg : getKey m q with
      | some w => simp [hg, hq]
      | none => simp [hg, hq, show ¬ k = q from fun hk => hq hk.symm]

theorem mergeAttrs_single (m : AttrMap) (k : String) (v : JSValue) :
    mergeAttrs m [(k, v)] = setKey m k v := rfl

theorem attrLoop_inrange {α : Type} (setA : α → AttrMap → α) (attrs : AttrMap) :
    ∀ (fuel : Nat) (i : Nat) (l : List α), i + fuel ≤ l.length →
      (attrLoop setA attrs fuel (i : Int) l).2 = none ∧
      (attrLoop setA attrs fuel (i : Int) l).1.length = l.length ∧
      ∀ j : Nat, (attrLoop setA attrs fuel (i : Int) l).1[j]? =
        if i ≤ j ∧ j < i + fuel then l[j]?.map (fun e => setA e attrs) else l[j]? := by
  intro fuel
  induction fuel with
  | zero =>
    intro i l hle
    refine ⟨rfl, rfl, fun j => ?_⟩
    rw [if_neg (by omega)]
    rfl
  | succ fuel ih =>
    intro i l hle
    have hi : i < l.length := by omega
    have hget : intGet? l (i : Int) = some l[i] := by
      simp [intGet?, Int.toNat_natCast, List.getElem?_eq_getElem hi]
    have hcast : ((i : Int) + 1) = ((i + 1 : Nat) : Int) := by push_cast; ring
    simp only [attrLoop, hget, hcast, Int.toNat_natCast]
    have hlen : (l.set i (setA l[i] attrs)).length = l.length := List.length_set l i _
    have hrec := ih (i + 1) (l.set i (setA l[i] attrs)) (by omega)
    refine ⟨hrec.1, by rw [hrec.2.1, hlen], fun j => ?_⟩
    rw [hrec.2.2 j]
    by_cases hj : i + 1 ≤ j ∧ j < i + 1 + fuel
    · rw [if_pos hj, if_pos (by omega)]
      rw [List.getElem?_set_ne (by omega)]
    · rw [if_neg hj]
      by_cases hji : j = i
      · subst hji
        rw [if_pos (by omega), List.getElem?_set_self hi,
          List.getElem?_eq_getElem hi]
        rfl
      · rw [List.getElem?_set_ne (fun he => hji he.symm), if_neg (by omega)]

theorem attrLoop_oob {α : Type} (setA : α → AttrMap → α) (attrs : AttrMap)
    (i : Int) (l : List α) (h : i < 0 ∨ (l.length : Int) ≤ i) :
    attrLoop setA attrs 1 i l =
      (l, if attrs.isEmpty then none else some JSErr.typeError) := by
  have hget : intGet? l i = none := by
    unfold intGet?
    rcases h with h | h
    · rw [if_neg (by omega)]
    · rw [if_pos (by omega)]
      exact List.getElem?_eq_none (by omega)
  simp only [attrLoop, hget]
  by_cases ha : attrs.isEmpty <;> simp [ha, attrLoop]

theorem getKey_merge_single (m : AttrMap) (k : String) (v : JSValue) (q : String) :
    getKey (mergeAttrs m [(k, v)]) q = if q = k then some v else getKey m q := by
  rw [mergeAttrs_single, getKey_setKey]

/-- C3 (amended): for an out-of-range index (negative, or at least the
element count) `setNodeAttributes` and `setEdgeAttributes` leave the graph
unchanged, and they signal a `TypeError` — thrown by the first assignment
through the missing element — when the attribute mapping is nonempty, and
no error at all when it is empty; there is no structured `IndexOutOfRange`
signal. -/
theorem C3_oob_amended (g : JSGraph) (idx : Int) (attrs : AttrMap) :
    (idx < 0 ∨ (g.nodes.length : Int) ≤ idx →
      setNodeAttributes g (some idx) attrs =
        (g, if attrs.isEmpty then none else some JSErr.typeError)) ∧
    (idx < 0 ∨ (g.edges.length : Int) ≤ idx →
      setEdgeAttributes g (some idx) attrs =
        (g, if attrs.isEmpty then none else some JSErr.typeError)) := by
  have hf : (idx + 1 - idx).toNat = 1 := by omega
  constructor
  · intro h
    simp only [setNodeAttributes, hf, attrLoop_oob nodeSetAttrs attrs idx g.nodes h]
  · intro h
    simp only [setEdgeAttributes, hf, attrLoop_oob edgeSetAttrs attrs idx g.edges h]

/-- Witness for `C3_oob_amended` at concrete out-of-range indices. -/
theorem C3_oob_amended_witness :
    setNodeAttributes exGEdges (some 5) [(keyColor, JSValue.arrv [1, 2, 3])] =
        (exGEdges, some JSErr.typeError) ∧
    setEdgeAttributes exGEdges (some (-1)) [(keyColor, JSValue.arrv [1, 2, 3])] =
        (exGEdges, some JSErr.typeError) := by
  constructor
  · have h := (C3_oob_amended exGEdges 5 [(keyColor, JSValue.arrv [1, 2, 3])]).1
      (Or.inr (by decide))
    simpa using h
  · have h := (C3_oob_amended exGEdges (-1) [(keyColor, JSValue.arrv [1, 2, 3])]).2
      (Or.inl (by decide))
    simpa using h

/-- C3 counterexample: on a 2-node graph, `setNodeAttributes` at the
out-of-range index 5 with a nonempty attribute mapping signals a
`TypeError`, not the claimed `IndexOutOfRange`; and with an empty mapping
it signals nothing at all. -/
theorem C3_counterexample :
    (setNodeAttributes exGEdges (some 5) [(keyColor, JSValue.arrv [1, 2, 3])]).2 ≠
        some JSErr.indexOutOfRange ∧
    (setNodeAttributes exGEdges (some 5) [(keyColor, JSValue.arrv [1, 2, 3])]).2 =
        some JSErr.typeError ∧
    (setNodeAttributes exGEdges (some 5) ([] : AttrMap)).2 = none := by decide

/-- C2 (code bug at the failing input): on a graph with 2 nodes and 3
edges, `setEdgeAttributes` with the index omitted returns without error
but merges the attributes only into edges 0 and 1 — the loop is bounded by
`graph.nodes.length` — leaving edge 2 without the attribute (nodes are
unchanged, as claimed). -/
theorem C2_loop_bound_bug :
    (setEdgeAttributes exGEdges none [(keyColor, JSValue.arrv [255, 0, 0])]).2 = none ∧
    ((setEdgeAttributes exGEdges none [(keyColor, JSValue.arrv [255, 0, 0])]).1.edges[0]?).map
        (fun e => getKey e.attrs keyColor) = some (some (JSValue.arrv [255, 0, 0])) ∧
    ((setEdgeAttributes exGEdges none [(keyColor, JSValue.arrv [255, 0, 0])]).1.edges[1]?).map
        (fun e => getKey e.attrs keyColor) = some (some (JSValue.arrv [255, 0, 0])) ∧
    ((setEdgeAttributes exGEdges none [(keyColor, JSValue.arrv [255, 0, 0])]).1.edges[2]?).map
        (fun e => getKey e.attrs keyColor) = some none ∧
    (setEdgeAttributes exGEdges none [(keyColor, JSValue.arrv [255, 0, 0])]).1.nodes =
        exGEdges.nodes := by decide

/-- C6: attribute merging is a shallow per-key overwrite, later calls win
and unspecified keys keep their prior values — for any graph with at least
two nodes whose node 0 has no `color` attribute, `setNodeAttributes(1,
{color:[1,2,3]})` followed by `setNodeAttributes({line_width:5})` leaves
node 1 with `color = [1,2,3]` and `line_width = 5`, and node 0 with
`color` unset and `line_width = 5`. -/
theorem C6_shallow_merge (g : JSGraph) (n0 n1 : JSNode) (rest : List JSNode)
    (hg : g.nodes = n0 :: n1 :: rest)
    (h0 : getKey n0.attrs keyColor = none) :
    ((setNodeAttributes (setNodeAttributes g (some 1)
          [(keyColor, JSValue.arrv [1, 2, 3])]).1 none
          [(keyLineWidth, JSValue.num 5)]).1.nodes[1]?).map
        (fun n => (getKey n.attrs keyColor, getKey n.attrs keyLineWidth)) =
      some (some (JSValue.arrv [1, 2, 3]), some (JSValue.num 5)) ∧
    ((setNodeAttributes (setNodeAttributes g (some 1)
          [(keyColor, JSValue.arrv [1, 2, 3])]).1 none
          [(keyLineWidth, JSValue.num 5)]).1.nodes[0]?).map
        (fun n => (getKey n.attrs keyColor, getKey n.attrs keyLineWidth)) =
      some (none, some (JSValue.num 5)) := by
  have e1 : setNodeAttributes g (some 1) [(keyColor, JSValue.arrv [1, 2, 3])] =
      ({ g with nodes := n0 :: nodeSetAttrs n1 [(keyColor, JSValue.arrv [1, 2, 3])] :: rest },
       none) := by
    simp [setNodeAttributes, hg, attrLoop, intGet?, List.set]
  rw [e1]
  have hlen : (n0 :: nodeSetAttrs n1 [(keyColor, JSValue.arrv [1, 2, 3])] :: rest).length =
      rest.length + 2 := by simp
  have h2 := attrLoop_inrange nodeSetAttrs [(keyLineWidth, JSValue.num 5)]
    (rest.length + 2) 0 (n0 :: nodeSetAttrs n1 [(keyColor, JSValue.arrv [1, 2, 3])] :: rest)
    (by simp)
  have hfuel : ((((rest.length + 2 : Nat) : Int)) - 0).toNat = rest.length + 2 := by
    omega
  constructor
  · have hj := h2.2.2 1
    rw [if_pos (by omega)] at hj
    simp only [setNodeAttributes, hlen, hfuel, Nat.cast_ofNat, Nat.cast_zero]
    rw [show ((0 : Nat) : Int) = (0 : Int) from rfl] at hj
    rw [hj]
    simp only [List.getElem?_cons_succ, List.getElem?_cons_zero, Option.map_map]
    simp only [Option.map, nodeSetAttrs, Function.comp, Option.some.injEq, Prod.mk.injEq]
    constructor
    · rw [getKey_merge_single, if_neg (by decide), getKey_merge_single, if_pos rfl]
    · rw [getKey_merge_single, if_pos rfl]
  · have hj := h2.2.2 0
    rw [if_pos (by omega)] at hj
    simp only [setNodeAttributes, hlen, hfuel, Nat.cast_ofNat, Nat.cast_zero]
    rw [show ((0 : Nat) : Int) = (0 : Int) from rfl] at hj
    rw [hj]
    simp only [List.getElem?_cons_zero, Option.map_map]
    simp only [Option.map, nodeSetAttrs, Function.comp, Option.some.injEq, Prod.mk.injEq]
    constructor
    · rw [getKey_merge_single, if_neg (by decide)]
      exact h0
    · rw [getKey_merge_single, if_pos rfl]

/-- Witness for `C6_shallow_merge` on a concrete fresh 2-node graph. -/
theorem C6_shallow_merge_witness :
    ((setNodeAttributes (setNodeAttributes exGEdges (some 1)
          [(keyColor, JSValue.arrv [1, 2, 3])]).1 none
          [(keyLineWidth, JSValue.num 5)]).1.nodes[1]?).map
        (fun n => (getKey n.attrs keyColor, getKey n.attrs keyLineWidth)) =
      some (some (JSValue.arrv [1, 2, 3]), some (JSValue.num 5)) ∧
    ((setNodeAttributes (setNodeAttributes exGEdges (some 1)
          [(keyColor, JSValue.arrv [1, 2, 3])]).1 none
          [(keyLineWidth, JSValue.num 5)]).1.nodes[0]?).map
        (fun n => (getKey n.attrs keyColor, getKey n.attrs keyLineWidth)) =
      some (none, some (JSValue.num 5)) :=
  C6_shallow_merge exGEdges {} {} [] rfl rfl

theorem firstUnplaced_none_iff :
    ∀ (l : List JSNode) (i : Nat),
      firstUnplaced l i = none ↔ ∀ n ∈ l, n.position.isSome := by
  intro l
  induction l with
  | nil => intro i; simp [firstUnplaced]
  | cons n rest ih =>
    intro i
    cases hp : n.position with
    | none => simp [firstUnplaced, hp]
    | some np => simp [firstUnplaced, hp, ih (i + 1)]

theorem firstUnplaced_spec :
    ∀ (l : List JSNode) (i j : Nat), firstUnplaced l i = some j →
      ∃ k, j = i + k ∧ (∃ n, l[k]? = some n ∧ n.position = none) ∧
        ∀ m, m < k → ∀ nm, l[m]? = some nm → nm.position.isSome := by
  intro l
  induction l with
  | nil => intro i j h; cases h
  | cons n rest ih =>
    intro i j h
    unfold firstUnplaced at h
    cases hp : n.position with
    | none =>
      rw [hp] at h
      simp only [Option.isNone_none, if_pos, Option.some.injEq] at h
      refine ⟨0, by omega, ⟨n, by simp, hp⟩, ?_⟩
      intro m hm
      omega
    | some np =>
      rw [hp] at h
      simp only [Option.isNone_some, Bool.false_eq_true, if_false] at h
      obtain ⟨k, hk, hn, hmin⟩ := ih (i + 1) j h
      refine ⟨k + 1, by omega, by simpa using hn, ?_⟩
      intro m hm nm hget
      cases m with
      | zero =>
        simp only [List.getElem?_cons_zero, Option.some.injEq] at hget
        rw [← hget, hp]
        rfl
      | succ m2 =>
        exact hmin m2 (by omega) nm (by simpa using hget)

/-- C4: for every graph, `getNextNode()` returns the smallest node index
whose `position` is unset, and returns `none` iff every node has a
position. -/
theorem C4_next_node (hit : Int) (g : JSGraph) :
    (∀ j, getNextNode hit g = some j →
      (∃ n, g.nodes[j]? = some n ∧ n.position = none) ∧
      ∀ m, m < j → ∀ nm, g.nodes[m]? = some nm → nm.position.isSome) ∧
    (getNextNode hit g = none ↔ ∀ n ∈ g.nodes, n.position.isSome) := by
  have hfn : getNextNode hit g = firstUnplaced g.nodes 0 := rfl
  constructor
  · intro j hj
    rw [hfn] at hj
    obtain ⟨k, hk, hn, hmin⟩ := firstUnplaced_spec g.nodes 0 j hj
    have hjk : j = k := by omega
    subst hjk
    exact ⟨hn, fun m hm nm hg2 => hmin m (by omega) nm hg2⟩
  · rw [hfn]
    exact firstUnplaced_none_iff g.nodes 0

/-- Witness for `C4_next_node`: on a graph with node 0 placed and node 1
unplaced, `getNextNode` returns index 1, node 1 is indeed unplaced and
node 0 is placed; on a fully placed graph it returns `none`. -/
theorem C4_next_node_witness :
    ((∃ n, exGNext.nodes[1]? = some n ∧ n.position = none) ∧
      ∀ m, m < 1 → ∀ nm, exGNext.nodes[m]? = some nm → nm.position.isSome) ∧
    (getNextNode 10 exGTie = none ↔ ∀ n ∈ exGTie.nodes, n.position.isSome) :=
  ⟨(C4_next_node 10 exGNext).1 1 (by decide), (C4_next_node 10 exGTie).2⟩

theorem jsOr_eq_specResolve (a b : Option JSValue) (c : JSValue) :
    jsOr a (jsOr b c) = specResolve a b c := by
  cases a with
  | none =>
    cases b with
    | none => rfl
    | some w => by_cases hw : w.truthy <;> simp [jsOr, specResolve, isTruthyOpt, hw]
  | some v =>
    by_cases hv : v.truthy
    · simp [jsOr, specResolve, isTruthyOpt, hv]
    · cases b with
      | none => simp [jsOr, specResolve, isTruthyOpt, hv]
      | some w => by_cases hw : w.truthy <;> simp [jsOr, specResolve, isTruthyOpt, hv, hw]

theorem jsOr_eq_specResolve_none (a : Option JSValue) (c : JSValue) :
    jsOr a c = specResolve a none c := by
  cases a with
  | none => rfl
  | some v => by_cases hv : v.truthy <;> simp [jsOr, specResolve, isTruthyOpt, hv]

/-- C7: every style the renderer uses is resolved most-specific-wins — the
element's own override if set and non-falsy, else the widget-level option
if set and non-falsy, else the hard-coded fallback (line width 3, node
diameter 3, stroke color [0,255,255]) — and `initialize` defaults
`hit_distance` to 10 when it is unset or falsy. -/
theorem C7_style_resolution (e : JSEdge) (n : JSNode) (o : JSOptions) :
    effEdgeWidth e o = specResolve (getKey e.attrs keyLineWidth) o.line_width (JSValue.num 3) ∧
    effEdgeColor e o =
      specResolve (getKey e.attrs keyColor) o.edge_color (JSValue.arrv [0, 255, 255]) ∧
    effNodeWidth n o = specResolve (getKey n.attrs keyLineWidth) o.line_width (JSValue.num 3) ∧
    effNodeColor n o =
      specResolve (getKey n.attrs keyColor) o.node_color (JSValue.arrv [0, 255, 255]) ∧
    effNodeDiam n o = specResolve (getKey n.attrs keyDiameter) o.node_diameter (JSValue.num 3) ∧
    initHitDistance o = specResolve o.hit_distance none (JSValue.num 10) :=
  ⟨jsOr_eq_specResolve _ _ _, jsOr_eq_specResolve _ _ _, jsOr_eq_specResolve _ _ _,
   jsOr_eq_specResolve _ _ _, jsOr_eq_specResolve _ _ _, jsOr_eq_specResolve_none _ _⟩

theorem renderEdges_valid (nodes : List JSNode) (o : JSOptions) :
    ∀ es : List JSEdge,
      (∀ e ∈ es, (0 ≤ e.index.1 ∧ e.index.1 < (nodes.length : Int)) ∧
        (0 ≤ e.index.2 ∧ e.index.2 < (nodes.length : Int))) →
      renderEdges nodes o es = some (es.filterMap (edgeCmd nodes o)) := by
  intro es
  induction es with
  | nil => intro _; rfl
  | cons e rest ih =>
    intro h
    have he := h e (List.mem_cons_self e rest)
    have hrest := fun x hx => h x (List.mem_cons_of_mem e hx)
    have hlt1 : e.index.1.toNat < nodes.length := by omega
    have hlt2 : e.index.2.toNat < nodes.length := by omega
    have h1 : intGet? nodes e.index.1 = some nodes[e.index.1.toNat] := by
      unfold intGet?
      rw [if_pos he.1.1]
      exact List.getElem?_eq_getElem hlt1
    have h2 : intGet? nodes e.index.2 = some nodes[e.index.2.toNat] := by
      unfold intGet?
      rw [if_pos he.2.1]
      exact List.getElem?_eq_getElem hlt2
    cases hp1 : (nodes[e.index.1.toNat]).position with
    | none =>
      have hcmd : edgeCmd nodes o e = none := by simp [edgeCmd, h1, h2, hp1]
      simp only [renderEdges, h1, h2, hp1, List.filterMap_cons, hcmd]
      exact ih hrest
    | some p1 =>
      cases hp2 : (nodes[e.index.2.toNat]).position with
      | none =>
        have hcmd : edgeCmd nodes o e = none := by simp [edgeCmd, h1, h2, hp1, hp2]
        simp only [renderEdges, h1, h2, hp1, hp2, List.filterMap_cons, hcmd]
        exact ih hrest
      | some p2 =>
        have hcmd : edgeCmd nodes o e =
            some (DrawCmd.line p1 p2 (effEdgeWidth e o) (effEdgeColor e o)) := by
          simp [edgeCmd, h1, h2, hp1, hp2]
        simp only [renderEdges, h1, h2, hp1, hp2, List.filterMap_cons, hcmd, ih hrest,
          Option.map_some]
        rfl

theorem renderNodes_eq_filter (o : JSOptions) :
    ∀ l : List JSNode,
      renderNodes o l = (l.filter (fun n => n.position.isSome)).map
        (fun n => DrawCmd.circle (n.position.getD (0, 0))
          (effNodeWidth n o) (effNodeColor n o) (effNodeDiam n o)) := by
  intro l
  induction l with
  | nil => rfl
  | cons n rest ih =>
    cases hp : n.position with
    | none =>
      simp only [renderNodes] at ih
      simp [renderNodes, List.filterMap_cons, List.filter_cons, hp, ih]
    | some p =>
      simp only [renderNodes] at ih
      simp [renderNodes, List.filterMap_cons, List.filter_cons, hp, ih]

theorem edgeCmd_some_line (nodes : List JSNode) (o : JSOptions) (e : JSEdge) (c : DrawCmd)
    (h : edgeCmd nodes o e = some c) : c.isLine = true := by
  unfold edgeCmd at h
  repeat' split at h
  all_goals cases h
  all_goals rfl

theorem renderNodes_isCircle (o : JSOptions) (l : List JSNode) (c : DrawCmd)
    (hc : c ∈ renderNodes o l) : c.isLine = false := by
  unfold renderNodes at hc
  rw [List.mem_filterMap] at hc
  obtain ⟨n, _, hn⟩ := hc
  cases hp : n.position with
  | none => rw [hp] at hn; cases hn
  | some p =>
    rw [hp] at hn
    simp only [Option.map_some', Option.some.injEq] at hn
    rw [← hn]
    rfl

theorem edgeCmd_isSome_iff (nodes : List JSNode) (o : JSOptions) (e : JSEdge)
    (n1 n2 : JSNode) (h1 : intGet? nodes e.index.1 = some n1)
    (h2 : intGet? nodes e.index.2 = some n2) :
    (edgeCmd nodes o e).isSome = true ↔ n1.position.isSome = true ∧ n2.position.isSome = true := by
  unfold edgeCmd
  rw [h1, h2]
  cases hp1 : n1.position <;> cases hp2 : n2.position <;> simp [hp1, hp2]

/-- C8: under valid topology, `renderGraph` draws all edge commands before
any node command, an edge yields a command iff both endpoint nodes have a
position, and exactly the nodes with a position yield (circle) commands. -/
theorem C8_render_order (g : JSGraph) (o : JSOptions) (hv : ValidTopology g) :
    renderGraph g o = some (g.edges.filterMap (edgeCmd g.nodes o) ++ renderNodes o g.nodes) ∧
    (∀ c ∈ g.edges.filterMap (edgeCmd g.nodes o), c.isLine = true) ∧
    (∀ c ∈ renderNodes o g.nodes, c.isLine = false) ∧
    (∀ e ∈ g.edges, ∀ n1 n2, intGet? g.nodes e.index.1 = some n1 →
      intGet? g.nodes e.index.2 = some n2 →
      ((edgeCmd g.nodes o e).isSome = true ↔
        n1.position.isSome = true ∧ n2.position.isSome = true)) ∧
    renderNodes o g.nodes = (g.nodes.filter (fun n => n.position.isSome)).map
      (fun n => DrawCmd.circle (n.position.getD (0, 0))
        (effNodeWidth n o) (effNodeColor n o) (effNodeDiam n o)) := by
  refine ⟨?_, ?_, ?_, ?_, renderNodes_eq_filter o g.nodes⟩
  · unfold renderGraph
    rw [renderEdges_valid g.nodes o g.edges hv]
    rfl
  · intro c hc
    rw [List.mem_filterMap] at hc
    obtain ⟨e, _, he⟩ := hc
    exact edgeCmd_some_line g.nodes o e c he
  · intro c hc
    exact renderNodes_isCircle o g.nodes c hc
  · intro e _ n1 n2 h1 h2
    exact edgeCmd_isSome_iff g.nodes o e n1 n2 h1 h2

/-- Witness for `C8_render_order` on a concrete graph: three nodes of
which two are placed, two edges of which exactly one has both endpoints
placed. -/
theorem C8_render_order_witness :
    renderGraph exGRender {} =
      some (exGRender.edges.filterMap (edgeCmd exGRender.nodes {}) ++
        renderNodes {} exGRender.nodes) ∧
    renderGraph exGRender {} =
      some [DrawCmd.line (1, 1) (4, 5) (JSValue.num 3) (JSValue.arrv [0, 255, 255]),
        DrawCmd.circle (1, 1) (JSValue.num 3) (JSValue.arrv [0, 255, 255]) (JSValue.num 3),
        DrawCmd.circle (4, 5) (JSValue.num 3) (JSValue.arrv [0, 255, 255]) (JSValue.num 3)] :=
  ⟨(C8_render_order exGRender {} (by unfold ValidTopology; decide)).1, by decide⟩

theorem setNodePos_length :
    ∀ (l : List JSNode) (i : Nat) (pos : Int × Int), (setNodePos l i pos).length = l.length := by
  intro l
  induction l with
  | nil => intro i pos; rfl
  | cons n rest ih =>
    intro i pos
    cases i with
    | zero => rfl
    | succ i2 => simp [setNodePos, ih]

theorem setNodePos_get :
    ∀ (l : List JSNode) (i : Nat) (pos : Int × Int) (j : Nat),
      (setNodePos l i pos)[j]? =
        if j = i then l[j]?.map (fun n => { n with position := some pos }) else l[j]? := by
  intro l
  induction l with
  | nil => intro i pos j; simp [setNodePos]
  | cons n rest ih =>
    intro i pos j
    cases i with
    | zero =>
      cases j with
      | zero => simp [setNodePos]
      | succ j2 => simp [setNodePos]
    | succ i2 =>
      cases j with
      | zero => simp [setNodePos]
      | succ j2 =>
        simp only [setNodePos, List.getElem?_cons_succ]
        rw [ih i2 pos j2]
        by_cases hj : j2 = i2
        · rw [if_pos hj, if_pos (by omega)]
        · rw [if_neg hj, if_neg (by omega)]

theorem updateNode_none (g : JSGraph) (pos : Int × Int) : updateNode g none pos = g := rfl

theorem updateNode_edges (g : JSGraph) (c : Option Nat) (pos : Int × Int) :
    (updateNode g c pos).edges = g.edges := by
  cases c <;> rfl

theorem updateNode_length (g : JSGraph) (c : Option Nat) (pos : Int × Int) :
    (updateNode g c pos).nodes.length = g.nodes.length := by
  cases c with
  | none => rfl
  | some i => exact setNodePos_length g.nodes i pos

theorem updateNode_some_get (g : JSGraph) (i : Nat) (pos : Int × Int) (j : Nat) :
    (updateNode g (some i) pos).nodes[j]? =
      if j = i then g.nodes[j]?.map (fun n => { n with position := some pos })
      else g.nodes[j]? :=
  setNodePos_get g.nodes i pos j

theorem runEvents_append (hs : Bool) (hit w h : Int) :
    ∀ (l1 l2 : List PointerEvent) (s : WidgetState),
      runEvents hs hit w h s (l1 ++ l2) =
        ((runEvents hs hit w h (runEvents hs hit w h s l1).1 l2).1,
         (runEvents hs hit w h s l1).2 ++
           (runEvents hs hit w h (runEvents hs hit w h s l1).1 l2).2) := by
  intro l1
  induction l1 with
  | nil => intro l2 s; simp [runEvents]
  | cons e rest ih =>
    intro l2 s
    simp only [List.cons_append, runEvents, List.append_eq, ih, List.append_assoc]

theorem runEvents_moves (hs : Bool) (hit w h : Int) :
    ∀ (moves : List (Int × Int)) (s : WidgetState), s.mousestatus = true →
      runEvents hs hit w h s (moves.map PointerEvent.mousemove) =
        ({ mousestatus := true, current_node := s.current_node,
           graph := moves.foldl
             (fun g mv => updateNode g s.current_node (getPosition w h mv)) s.graph },
         []) := by
  intro moves
  induction moves with
  | nil =>
    intro s hms
    obtain ⟨ms, cn, g⟩ := s
    cases hms
    rfl
  | cons mv rest ih =>
    intro s hms
    have hstep : step hs hit w h s (PointerEvent.mousemove mv) =
        ({ s with graph := updateNode s.graph s.current_node (getPosition w h mv) }, []) := by
      simp [step, hms]
    simp only [List.map_cons, runEvents, hstep]
    rw [ih { s with graph := updateNode s.graph s.current_node (getPosition w h mv) } hms]
    simp [List.foldl_cons]

theorem gesture_run (hs : Bool) (hit w h : Int) (s : WidgetState) (p q : Int × Int)
    (moves : List (Int × Int)) (h0 : s.mousestatus = false) :
    runEvents hs hit w h s (gestureEvents p moves q) =
      ({ mousestatus := false, current_node := none,
         graph := updateNode
           (moves.foldl (fun g mv =>
             updateNode g (findNode hit s.graph (some (getPosition w h p)))
               (getPosition w h mv))
             (updateNode s.graph (findNode hit s.graph (some (getPosition w h p)))
               (getPosition w h p)))
           (findNode hit s.graph (some (getPosition w h p))) (getPosition w h q) },
       (if hs then [CallbackCall.onselect (findNode hit s.graph (some (getPosition w h p)))]
        else []) ++
         [CallbackCall.onchange (findNode hit s.graph (some (getPosition w h p)))]) := by
  have hdown : step hs hit w h s (PointerEvent.mousedown p) =
      ({ mousestatus := true,
         current_node := findNode hit s.graph (some (getPosition w h p)),
         graph := updateNode s.graph (findNode hit s.graph (some (getPosition w h p)))
           (getPosition w h p) },
       if hs then [CallbackCall.onselect (findNode hit s.graph (some (getPosition w h p)))]
       else []) := by
    simp [step, h0]
  unfold gestureEvents
  simp only [runEvents, List.append_eq, hdown]
  rw [runEvents_append hs hit w h (moves.map PointerEvent.mousemove)
    [PointerEvent.mouseup q]]
  rw [runEvents_moves hs hit w h moves _ rfl]
  simp only [runEvents, step, if_pos rfl, reduceIte]
  simp

/-- C5: a full press, k moves, release gesture starting from Idle, with
both callbacks configured, produces exactly one `onselect` call (at press)
followed by exactly one `onchange` call (at release), both carrying the
target resolved at press time. -/
theorem C5_gesture_callbacks (hit w h : Int) (s : WidgetState) (p q : Int × Int)
    (moves : List (Int × Int)) (h0 : s.mousestatus = false) :
    (runEvents true hit w h s (gestureEvents p moves q)).2 =
      [CallbackCall.onselect (findNode hit s.graph (some (getPosition w h p))),
       CallbackCall.onchange (findNode hit s.graph (some (getPosition w h p)))] := by
  rw [gesture_run true hit w h s p q moves h0]
  simp

/-- Witness for `C5_gesture_callbacks`: a press-move-release gesture on
the untouched 3-node chain selects and changes node 0 exactly once each. -/
theorem C5_gesture_callbacks_witness :
    (runEvents true 10 100 100 (exIdle exGChain)
        (gestureEvents (10, 10) [(20, 20)] (30, 30))).2 =
      [CallbackCall.onselect (some 0), CallbackCall.onchange (some 0)] := by
  rw [C5_gesture_callbacks 10 100 100 (exIdle exGChain) (10, 10) (30, 30) [(20, 20)] rfl]
  decide

theorem foldl_updateNode_none (w h : Int) :
    ∀ (moves : List (Int × Int)) (g : JSGraph),
      moves.foldl (fun g2 mv => updateNode g2 none (getPosition w h mv)) g = g := by
  intro moves
  induction moves with
  | nil => intro g; rfl
  | cons mv rest ih => intro g; simp [List.foldl_cons, updateNode_none, ih]

/-- C10: when the press resolves no target (`findNode` returns `null`),
the gesture still runs: the graph is not mutated at all, yet `onselect`
fires at press and `onchange` at release, each receiving `null`. -/
theorem C10_null_target (hit w h : Int) (s : WidgetState) (p q : Int × Int)
    (moves : List (Int × Int)) (h0 : s.mousestatus = false)
    (ht : findNode hit s.graph (some (getPosition w h p)) = none) :
    runEvents true hit w h s (gestureEvents p moves q) =
      ({ mousestatus := false, current_node := none, graph := s.graph },
       [CallbackCall.onselect none, CallbackCall.onchange none]) := by
  rw [gesture_run true hit w h s p q moves h0, ht]
  rw [updateNode_none, foldl_updateNode_none, updateNode_none]
  simp

/-- Witness for `C10_null_target`: both nodes of the tie graph are placed
and the press at (50,50) is far outside the hit radius of either. -/
theorem C10_null_target_witness :
    runEvents true 10 100 100 (exIdle exGTie) (gestureEvents (50, 50) [(60, 60)] (70, 70)) =
      ({ mousestatus := false, current_node := none, graph := exGTie },
       [CallbackCall.onselect none, CallbackCall.onchange none]) :=
  C10_null_target 10 100 100 (exIdle exGTie) (50, 50) (70, 70) [(60, 60)] rfl (by decide)

theorem foldl_updateNode_edges (w h : Int) (c : Option Nat) :
    ∀ (moves : List (Int × Int)) (g : JSGraph),
      (moves.foldl (fun g2 mv => updateNode g2 c (getPosition w h mv)) g).edges = g.edges := by
  intro moves
  induction moves with
  | nil => intro g; rfl
  | cons mv rest ih =>
    intro g
    rw [List.foldl_cons, ih, updateNode_edges]

theorem foldl_updateNode_length (w h : Int) (c : Option Nat) :
    ∀ (moves : List (Int × Int)) (g : JSGraph),
      (moves.foldl (fun g2 mv => updateNode g2 c (getPosition w h mv)) g).nodes.length =
        g.nodes.length := by
  intro moves
  induction moves with
  | nil => intro g; rfl
  | cons mv rest ih =>
    intro g
    rw [List.foldl_cons, ih, updateNode_length]

theorem foldl_updateNode_get_ne (w h : Int) (i : Nat) :
    ∀ (moves : List (Int × Int)) (g : JSGraph) (j : Nat), j ≠ i →
      (moves.foldl (fun g2 mv => updateNode g2 (some i) (getPosition w h mv)) g).nodes[j]? =
        g.nodes[j]? := by
  intro moves
  induction moves with
  | nil => intro g j _; rfl
  | cons mv rest ih =>
    intro g j hj
    rw [List.foldl_cons, ih _ j hj, updateNode_some_get, if_neg hj]

theorem foldl_updateNode_get_at (w h : Int) (i : Nat) :
    ∀ (moves : List (Int × Int)) (g : JSGraph) (n : JSNode), g.nodes[i]? = some n →
      ∃ P, (moves.foldl
          (fun g2 mv => updateNode g2 (some i) (getPosition w h mv)) g).nodes[i]? =
        some { n with position := P } := by
  intro moves
  induction moves with
  | nil => intro g n hn; exact ⟨n.position, hn⟩
  | cons mv rest ih =>
    intro g n hn
    rw [List.foldl_cons]
    have hstep : (updateNode g (some i) (getPosition w h mv)).nodes[i]? =
        some { n with position := some (getPosition w h mv) } := by
      rw [updateNode_some_get, if_pos rfl, hn, Option.map_some']
    exact ih (updateNode g (some i) (getPosition w h mv))
      { n with position := some (getPosition w h mv) } hstep

/-- C9: a gesture starting from Idle whose press resolves to an
already-placed node `i` changes only node `i`'s `position` field (to the
clamped release coordinate): every other node, every edge, node `i`'s
other attributes, and the node-list length are unchanged, while `onselect`
and `onchange` both fire once more for node `i`. -/
theorem C9_reselect_frame (hit w h : Int) (s : WidgetState) (p q : Int × Int)
    (moves : List (Int × Int)) (i : Nat) (n : JSNode)
    (h0 : s.mousestatus = false)
    (ht : findNode hit s.graph (some (getPosition w h p)) = some i)
    (hn : s.graph.nodes[i]? = some n) (_hplaced : n.position.isSome = true) :
    (runEvents true hit w h s (gestureEvents p moves q)).2 =
      [CallbackCall.onselect (some i), CallbackCall.onchange (some i)] ∧
    (runEvents true hit w h s (gestureEvents p moves q)).1.graph.edges = s.graph.edges ∧
    (runEvents true hit w h s (gestureEvents p moves q)).1.graph.nodes.length =
      s.graph.nodes.length ∧
    (∀ j, j ≠ i →
      (runEvents true hit w h s (gestureEvents p moves q)).1.graph.nodes[j]? =
        s.graph.nodes[j]?) ∧
    (runEvents true hit w h s (gestureEvents p moves q)).1.graph.nodes[i]? =
      some { n with position := some (getPosition w h q) } := by
  rw [gesture_run true hit w h s p q moves h0, ht]
  refine ⟨by simp, ?_, ?_, ?_, ?_⟩
  · rw [updateNode_edges, foldl_updateNode_edges, updateNode_edges]
  · rw [updateNode_length, foldl_updateNode_length, updateNode_length]
  · intro j hj
    rw [updateNode_some_get, if_neg hj, foldl_updateNode_get_ne w h i moves _ j hj,
      updateNode_some_get, if_neg hj]
  · have hfirst : (updateNode s.graph (some i) (getPosition w h p)).nodes[i]? =
        some { n with position := some (getPosition w h p) } := by
      rw [updateNode_some_get, if_pos rfl, hn, Option.map_some']
    obtain ⟨P, hP⟩ := foldl_updateNode_get_at w h i moves _ _ hfirst
    rw [updateNode_some_get, if_pos rfl, hP, Option.map_some']

/-- Witness for `C9_reselect_frame`: pressing exactly on the placed node 0
of the tie graph and releasing at (30,30) moves only node 0 there. -/
theorem C9_reselect_frame_witness :
    (runEvents true 10 100 100 (exIdle exGTie) (gestureEvents (3, 4) [] (30, 30))).2 =
      [CallbackCall.onselect (some 0), CallbackCall.onchange (some 0)] ∧
    (runEvents true 10 100 100 (exIdle exGTie)
      (gestureEvents (3, 4) [] (30, 30))).1.graph.edges = exGTie.edges ∧
    (runEvents true 10 100 100 (exIdle exGTie)
      (gestureEvents (3, 4) [] (30, 30))).1.graph.nodes.length = exGTie.nodes.length ∧
    (∀ j, j ≠ 0 →
      (runEvents true 10 100 100 (exIdle exGTie)
        (gestureEvents (3, 4) [] (30, 30))).1.graph.nodes[j]? = exGTie.nodes[j]?) ∧
    (runEvents true 10 100 100 (exIdle exGTie)
      (gestureEvents (3, 4) [] (30, 30))).1.graph.nodes[0]? =
      some { position := some (getPosition 100 100 (30, 30)), attrs := [] } :=
  C9_reselect_frame 10 100 100 (exIdle exGTie) (3, 4) (30, 30) [] 0
    { position := some (3, 4) } rfl (by decide) (by decide) (by decide)

theorem nodeScan_eq_fold (p : Int × Int) (hit : Int) :
    ∀ (l : List JSNode) (i : Nat) (acc : Option (Nat × Int)),
      nodeScan p hit l i acc = (quals p hit l i).foldl qualStep acc := by
  intro l
  induction l with
  | nil => intro i acc; rfl
  | cons n rest ih =>
    intro i acc
    cases hp : n.position with
    | none =>
      simp only [nodeScan, quals, nodeQ, hp]
      exact ih (i + 1) acc
    | some np =>
      by_cases hh : hitLe hit (distSq np p) = true
      · have hacc : (if hitLe hit (distSq np p) && minLeP acc (distSq np p)
            then some (i, distSq np p) else acc) = qualStep acc (i, distSq np p) := by
          simp [qualStep, hh]
        have hq : nodeQ p hit n = some (distSq np p) := by
          simp [nodeQ, hp, hh]
        simp only [nodeScan, hp, hacc, quals, hq, List.foldl_cons]
        exact ih (i + 1) (qualStep acc (i, distSq np p))
      · have hh2 : hitLe hit (distSq np p) = false := by simpa using hh
        have hacc : (if hitLe hit (distSq np p) && minLeP acc (distSq np p)
            then some (i, distSq np p) else acc) = acc := by
          simp [hh2]
        have hq : nodeQ p hit n = none := by
          simp [nodeQ, hp, hh2]
        simp only [nodeScan, hp, hacc, quals, hq]
        exact ih (i + 1) acc

theorem quals_lb (p : Int × Int) (hit : Int) :
    ∀ (l : List JSNode) (i : Nat), ∀ e ∈ quals p hit l i, i ≤ e.1 := by
  intro l
  induction l with
  | nil => intro i e he; cases he
  | cons n rest ih =>
    intro i e he
    unfold quals at he
    cases hq : nodeQ p hit n with
    | none =>
      rw [hq] at he
      exact le_trans (Nat.le_succ i) (ih (i + 1) e he)
    | some d2 =>
      rw [hq] at he
      rcases List.mem_cons.mp he with heq | he2
      · rw [heq]
      · exact le_trans (Nat.le_succ i) (ih (i + 1) e he2)

theorem quals_pairwise (p : Int × Int) (hit : Int) :
    ∀ (l : List JSNode) (i : Nat), (quals p hit l i).Pairwise (fun a b => a.1 < b.1) := by
  intro l
  induction l with
  | nil => intro i; exact List.Pairwise.nil
  | cons n rest ih =>
    intro i
    unfold quals
    cases hq : nodeQ p hit n with
    | none => exact ih (i + 1)
    | some d2 =>
      refine List.Pairwise.cons ?_ (ih (i + 1))
      intro e he
      have hlb := quals_lb p hit rest (i + 1) e he
      omega

theorem quals_mem (p : Int × Int) (hit : Int) :
    ∀ (l : List JSNode) (i : Nat) (j : Nat) (d : Int),
      (j, d) ∈ quals p hit l i ↔
        ∃ k n, j = i + k ∧ l[k]? = some n ∧ nodeQ p hit n = some d := by
  intro l
  induction l with
  | nil => intro i j d; simp [quals]
  | cons n rest ih =>
    intro i j d
    unfold quals
    cases hq : nodeQ p hit n with
    | none =>
      rw [ih (i + 1)]
      constructor
      · rintro ⟨k, n2, hk, hget, hn2⟩
        exact ⟨k + 1, n2, by omega, by simpa using hget, hn2⟩
      · rintro ⟨k, n2, hk, hget, hn2⟩
        cases k with
        | zero =>
          simp only [List.getElem?_cons_zero, Option.some.injEq] at hget
          rw [← hget, hq] at hn2
          cases hn2
        | succ k2 =>
          exact ⟨k2, n2, by omega, by simpa using hget, hn2⟩
    | some d2 =>
      constructor
      · intro he
        rcases List.mem_cons.mp he with heq | he2
        · have hj : j = i := congrArg Prod.fst heq
          have hd : d = d2 := congrArg Prod.snd heq
          exact ⟨0, n, by omega, by simp, by rw [hq, hd]⟩
        · obtain ⟨k, n2, hk, hget, hn2⟩ := (ih (i + 1) j d).mp he2
          exact ⟨k + 1, n2, by omega, by simpa using hget, hn2⟩
      · rintro ⟨k, n2, hk, hget, hn2⟩
        cases k with
        | zero =>
          simp only [List.getElem?_cons_zero, Option.some.injEq] at hget
          rw [← hget, hq] at hn2
          have hd : d2 = d := Option.some.injEq .. |>.mp hn2
          have hj : j = i := by omega
          rw [hj, ← hd]
          exact List.mem_cons_self _ _
        | succ k2 =>
          exact List.mem_cons_of_mem _
            ((ih (i + 1) j d).mpr ⟨k2, n2, by omega, by simpa using hget, hn2⟩)

theorem foldl_qualStep_good :
    ∀ L : List (Nat × Int), L.Pairwise (fun a b => a.1 < b.1) →
      GoodFold L (L.foldl qualStep none) := by
  intro L
  induction L using List.reverseRecOn with
  | nil => intro _; exact rfl
  | append_singleton L2 e ih =>
    intro hpw
    obtain ⟨hpw2, _, hcross⟩ := List.pairwise_append.mp hpw
    rw [List.foldl_append]
    cases hprev : L2.foldl qualStep none with
    | none =>
      have hnil : L2 = [] := by
        have hg := ih hpw2
        rw [hprev] at hg
        exact hg
      subst hnil
      show GoodFold ([] ++ [e]) (qualStep none e)
      have hstep : qualStep none e = some e := by simp [qualStep, minLeP]
      rw [hstep]
      refine ⟨List.mem_cons_self _ _, ?_, ?_⟩
      · intro x hx
        rcases List.mem_cons.mp hx with heq | hx2
        · rw [heq]
        · cases hx2
      · intro x hx _
        rcases List.mem_cons.mp hx with heq | hx2
        · rw [heq]
        · cases hx2
    | some cm =>
      have hg := ih hpw2
      rw [hprev] at hg
      obtain ⟨hmem, hmin, hmax⟩ := hg
      simp only [List.foldl_cons, List.foldl_nil]
      by_cases hle : e.2 ≤ cm.2
      · have hstep : qualStep (some cm) e = some e := by simp [qualStep, minLeP, hle]
        rw [hstep]
        refine ⟨List.mem_append_right _ (List.mem_cons_self _ _), ?_, ?_⟩
        · intro x hx
          rcases List.mem_append.mp hx with hx2 | hx2
          · exact le_trans hle (hmin x hx2)
          · rcases List.mem_cons.mp hx2 with heq | hx3
            · rw [heq]
            · cases hx3
        · intro x hx _
          rcases List.mem_append.mp hx with hx2 | hx2
          · exact le_of_lt (hcross x hx2 e (List.mem_cons_self _ _))
          · rcases List.mem_cons.mp hx2 with heq | hx3
            · rw [heq]
            · cases hx3
      · have hstep : qualStep (some cm) e = some cm := by simp [qualStep, minLeP, hle]
        rw [hstep]
        refine ⟨List.mem_append_left _ hmem, ?_, ?_⟩
        · intro x hx
          rcases List.mem_append.mp hx with hx2 | hx2
          · exact hmin x hx2
          · rcases List.mem_cons.mp hx2 with heq | hx3
            · rw [heq]; omega
            · cases hx3
        · intro x hx hxe
          rcases List.mem_append.mp hx with hx2 | hx2
          · exact hmax x hx2 hxe
          · rcases List.mem_cons.mp hx2 with heq | hx3
            · rw [heq] at hxe; omega
            · cases hx3

/-- C1 (amended): whenever at least one placed node lies within
`hit_distance` of the pointer, `findNode` returns a placed node of
minimal (squared) Euclidean distance among those within the radius — and
among equal-minimum candidates it returns the HIGHEST index (the scan's
`distance <= min_distance` comparison lets every later tie overwrite the
candidate), not the lowest. -/
theorem C1_nearest_amended (g : JSGraph) (hit : Int) (p : Int × Int) (j0 : Nat) (d0 : Int)
    (h : Qualifies g hit p j0 d0) :
    ∃ c m, findNode hit g (some p) = some c ∧ Qualifies g hit p c m ∧
      (∀ j d, Qualifies g hit p j d → m ≤ d) ∧
      (∀ j d, Qualifies g hit p j d → d = m → j ≤ c) := by
  obtain ⟨n0, hget0, hq0⟩ := h
  have hmem0 : (j0, d0) ∈ quals p hit g.nodes 0 :=
    (quals_mem p hit g.nodes 0 j0 d0).mpr ⟨j0, n0, by omega, hget0, hq0⟩
  have hgood := foldl_qualStep_good (quals p hit g.nodes 0) (quals_pairwise p hit g.nodes 0)
  cases hfold : (quals p hit g.nodes 0).foldl qualStep none with
  | none =>
    rw [hfold] at hgood
    have hnil : quals p hit g.nodes 0 = [] := hgood
    rw [hnil] at hmem0
    cases hmem0
  | some cm =>
    rw [hfold] at hgood
    obtain ⟨hmem, hmin, hmax⟩ := hgood
    refine ⟨cm.1, cm.2, ?_, ?_, ?_, ?_⟩
    · show (match Option.map Prod.fst (nodeScan p hit g.nodes 0 none) with
            | some c => some c
            | none => firstUnplaced g.nodes 0) = some cm.1
      rw [nodeScan_eq_fold p hit g.nodes 0 none, hfold]
      rfl
    · obtain ⟨k, n2, hk, hget2, hq2⟩ := (quals_mem p hit g.nodes 0 cm.1 cm.2).mp hmem
      refine ⟨n2, ?_, hq2⟩
      have hk2 : cm.1 = k := by omega
      rw [hk2]
      exact hget2
    · intro j d hqd
      obtain ⟨n2, hg2, hq2⟩ := hqd
      exact hmin (j, d) ((quals_mem p hit g.nodes 0 j d).mpr ⟨j, n2, by omega, hg2, hq2⟩)
    · intro j d hqd hdm
      obtain ⟨n2, hg2, hq2⟩ := hqd
      exact hmax (j, d) ((quals_mem p hit g.nodes 0 j d).mpr ⟨j, n2, by omega, hg2, hq2⟩) hdm

/-- Witness for `C1_nearest_amended` on the tie graph: node 0 qualifies
(squared distance 25 within radius 10), so `findNode` returns a
minimal-distance candidate with the stated extremal properties. -/
theorem C1_nearest_amended_witness :
    ∃ c m, findNode 10 exGTie (some (0, 0)) = some c ∧ Qualifies exGTie 10 (0, 0) c m ∧
      (∀ j d, Qualifies exGTie 10 (0, 0) j d → m ≤ d) ∧
      (∀ j d, Qualifies exGTie 10 (0, 0) j d → d = m → j ≤ c) :=
  C1_nearest_amended exGTie 10 (0, 0) 0 25
    ⟨{ position := some (3, 4) }, by decide, by decide⟩

/-- C1 counterexample: on the tie graph both placed nodes are at exact
Euclidean distance 5 from the pointer (0,0), well within `hit_distance`
10, yet `findNode` returns index 1 — the HIGHEST tied index — not the
claimed lowest index 0. -/
theorem C1_counterexample :
    distSq (3, 4) (0, 0) = 25 ∧ distSq (0, 5) (0, 0) = 25 ∧
    hitLe 10 25 = true ∧
    (exGTie.nodes[0]?).map (fun n => n.position) = some (some (3, 4)) ∧
    (exGTie.nodes[1]?).map (fun n => n.position) = some (some (0, 5)) ∧
    findNode 10 exGTie (some (0, 0)) = some 1 ∧
    findNode 10 exGTie (some (0, 0)) ≠ some 0 := by decide
